import Mathlib

/-!
Shallow embedding of the housing price prediction service of `src/main.py`.

The service keeps four module-level artifacts (`model`, `scaler`, `encoders`,
`feature_names`) loaded once at startup, and serves:
  * `GET /health` (`health_check`),
  * `POST /predict` (`predict`),
  * `POST /predict/simple` (`predict_simple`),
all built on the feature-preparation routine `prepare_features`.

Modelling conventions:
  * JSON / form values are `Value` (number, string, or null).
  * A request body and a one-row pandas DataFrame are both a `Row`:
    an ordered association list of column name and value.  `getCol` is
    key lookup, `setCol` is `df[col] = value` (replace in place when the
    column exists, append otherwise).
  * Machine floats are idealised as `ℚ`; `round(x, 2)` is `round2`, using
    the round-half-to-even rule of Python `round`.
  * Code that may raise returns `Option` or `Except PyErr`; `PyErr`
    distinguishes `ValueError` (which `predict` catches around `float`)
    from `TypeError` (which it does not).
  * The externally produced artifacts are abstract: the model is a function
    from a scaled feature row to a prediction, the scaler is one fitted
    transform per fitted column (applied positionally, failing on a column
    count mismatch like `scaler.transform`), and an encoder maps a value to
    its numeric code, `none` standing for the `ValueError` that
    `LabelEncoder.transform` raises on an unseen label.
-/

/-- A JSON-style value as it appears in a request body (and in the cells of
the one-row DataFrame built from it): a number, a string, or null. -/
inductive Value where
  | num (q : ℚ)
  | str (s : String)
  | null
deriving DecidableEq

/-- Python exception kinds relevant to the numeric coercions of
`src/main.py`: `float`/`int` raise `ValueError` on an unparsable string and
`TypeError` on an argument that is neither a string nor a number (`None`). -/
inductive PyErr where
  | valueError
  | typeError
deriving DecidableEq

/-- A request body / one-row DataFrame: ordered columns with values. -/
abbrev Row := List (String × Value)

/-- Column lookup: `data.get(col)` / the cell of column `col` of the row. -/
def getCol : Row → String → Option Value
  | [], _ => none
  | (k, v) :: r, c => if k = c then some v else getCol r c

/-- Column membership, `col in df.columns`. -/
def hasCol (r : Row) (c : String) : Bool :=
  (getCol r c).isSome

/-- Overwrite every entry of column `c` by value `v`, keeping the rest. -/
def replaceCol : Row → String → Value → Row
  | [], _, _ => []
  | (k, u) :: t, c, v =>
    if k = c then (c, v) :: replaceCol t c v else (k, u) :: replaceCol t c v

/-- Column assignment `df[col] = value`: overwrite the column when present,
append it otherwise. -/
def setCol (r : Row) (c : String) (v : Value) : Row :=
  if hasCol r c then replaceCol r c v else r ++ [(c, v)]

/-- Numeric value of a decimal digit string read left to right. -/
def digitsVal (cs : List Char) : Nat :=
  cs.foldl (fun n c => n * 10 + (c.toNat - 48)) 0

/-- True when `cs` is a nonempty run of decimal digits. -/
def isDigits (cs : List Char) : Bool :=
  !cs.isEmpty && cs.all Char.isDigit

/-- Split a leading sign character off a numeric literal. -/
def stripSign : List Char → Int × List Char
  | '-' :: t => (-1, t)
  | '+' :: t => (1, t)
  | cs => (1, cs)

/-- The decimal fragment of Python `float(str)`: optional sign, then digits
with at most one decimal point and at least one digit.  Strings outside this
fragment are rejected (`none` = `ValueError`). -/
def parseFloat (s : String) : Option ℚ :=
  let sc := stripSign s.toList
  let ip := sc.2.takeWhile (fun c => c ≠ '.')
  match sc.2.dropWhile (fun c => c ≠ '.') with
  | [] =>
    if isDigits ip then some ((sc.1 : ℚ) * (digitsVal ip : ℚ)) else none
  | _ :: fp =>
    if (ip.all Char.isDigit && fp.all Char.isDigit) &&
        (!ip.isEmpty || !fp.isEmpty) then
      some ((sc.1 : ℚ) *
        ((digitsVal ip : ℚ) + (digitsVal fp : ℚ) / ((10 : ℚ) ^ fp.length)))
    else none

/-- Python `int(str)`: optional sign then digits only; in particular a
string holding a decimal point (such as "2.5") is rejected. -/
def parseInt (s : String) : Option ℤ :=
  let sc := stripSign s.toList
  if isDigits sc.2 then some (sc.1 * (digitsVal sc.2 : ℤ)) else none

/-- Truncation toward zero, the rounding used by Python `int(float)`. -/
def pyTrunc (q : ℚ) : ℤ :=
  if 0 ≤ q then Int.floor q else Int.ceil q

/-- Python `float(value)`: numbers pass through, strings are parsed
(`ValueError` on failure), `None` raises `TypeError`. -/
def pyFloat : Value → Except PyErr ℚ
  | Value.num q => Except.ok q
  | Value.str s =>
    match parseFloat s with
    | some q => Except.ok q
    | none => Except.error PyErr.valueError
  | Value.null => Except.error PyErr.typeError

/-- Python `int(value)`: numbers truncate toward zero, strings are parsed as
plain integers (`ValueError` on failure), `None` raises `TypeError`. -/
def pyInt : Value → Except PyErr ℤ
  | Value.num q => Except.ok (pyTrunc q)
  | Value.str s =>
    match parseInt s with
    | some z => Except.ok z
    | none => Except.error PyErr.valueError
  | Value.null => Except.error PyErr.typeError

/-- The regression model artifact: `model.predict` on one scaled row. -/
def Model : Type := List ℚ → ℚ

/-- The scaler artifact: one fitted transform per fitted feature column,
applied positionally by `scaler.transform`. -/
def Scaler : Type := List (ℚ → ℚ)

/-- A fitted `LabelEncoder` for one categorical column: `transform` yields
the numeric code of a value it recognises, and `none` where the real encoder
raises `ValueError` on an unseen label. -/
structure Encoder where
  transform : Value → Option ℚ

/-- The `encoders` artifact: a dict from column name to fitted encoder. -/
abbrev Encoders := List (String × Encoder)

/-- The module-level globals of `src/main.py` (lines 18-21), each `none`
until `load_model_components` assigns it. -/
structure ServerState where
  model : Option Model
  scaler : Option Scaler
  encoders : Option Encoders
  feature_names : Option (List String)

/-- The four persisted artifact files; a `none` component stands for a
`joblib.load` call that raises (missing or unreadable file). -/
structure ArtifactStore where
  model : Option Model
  scaler : Option Scaler
  encoders : Option Encoders
  feature_names : Option (List String)

/-- The state before startup: no artifact loaded. -/
def initState : ServerState :=
  ⟨none, none, none, none⟩

/-- `load_model_components` (`src/main.py` lines 23-48): load the four
artifacts in order into the globals, stopping at the first failure; the
Boolean is the function's return value.  Globals assigned before the failing
load keep their new values. -/
def load_model_components (fs : ArtifactStore) (st : ServerState) :
    ServerState × Bool :=
  match fs.model with
  | none => (st, false)
  | some m =>
    let st1 : ServerState := { st with model := some m }
    match fs.scaler with
    | none => (st1, false)
    | some s =>
      let st2 : ServerState := { st1 with scaler := some s }
      match fs.encoders with
      | none => (st2, false)
      | some e =>
        let st3 : ServerState := { st2 with encoders := some e }
        match fs.feature_names with
        | none => (st3, false)
        | some fns => ({ st3 with feature_names := some fns }, true)

/-- One iteration of the encoder loop of `prepare_features` (lines 57-64):
if the column is present, replace it by its code, substituting code 0 when
`transform` raises `ValueError` (unknown category). -/
def encodeStep (r : Row) (col : String) (enc : Encoder) : Row :=
  match getCol r col with
  | none => r
  | some v =>
    match enc.transform v with
    | some q => setCol r col (Value.num q)
    | none => setCol r col (Value.num 0)

/-- The encoder loop `for col, encoder in encoders.items()` of
`prepare_features`. -/
def applyEncoders : Encoders → Row → Row
  | [], r => r
  | (col, enc) :: rest, r => applyEncoders rest (encodeStep r col enc)

/-- The fill loop of `prepare_features` (lines 67-69): append value 0 for
every required feature absent from the row. -/
def fillMissing : List String → Row → Row
  | [], r => r
  | f :: fs, r => fillMissing fs (if hasCol r f then r else r ++ [(f, Value.num 0)])

/-- Column selection and reordering `df = df[feature_names]` (line 72):
pick the named columns in order; `none` is the `KeyError` on a missing
column. -/
def reorder : List String → Row → Option (List Value)
  | [], _ => some []
  | f :: fs, r =>
    match getCol r f, reorder fs r with
    | some v, some vs => some (v :: vs)
    | _, _ => none

/-- Numeric reading of a cell; a non-numeric cell makes the scaler raise. -/
def toNumQ : Value → Option ℚ
  | Value.num q => some q
  | _ => none

/-- Numeric reading of a whole row, failing on any non-numeric cell. -/
def numRow : List Value → Option (List ℚ)
  | [] => some []
  | v :: vs =>
    match toNumQ v, numRow vs with
    | some q, some qs => some (q :: qs)
    | _, _ => none

/-- `scaler.transform(df)` on the single row (line 75): raises unless the
column count matches the fitted width and every cell is numeric, then
applies each fitted column transform positionally. -/
def scaleRow (s : Scaler) (vs : List Value) : Option (List ℚ) :=
  if vs.length = s.length then
    match numRow vs with
    | some qs => some (List.zipWith (fun g q => g q) s qs)
    | none => none
  else none

/-- `prepare_features` (`src/main.py` lines 50-81): encode categoricals,
fill missing features with 0, reorder to `feature_names`, scale.  `none` is
an exception escaping the function (its `except` clause re-raises). -/
def prepare_features (e : Encoders) (fns : List String) (s : Scaler)
    (input_data : Row) : Option (List ℚ) :=
  Option.bind (reorder fns (fillMissing fns (applyEncoders e input_data)))
    (scaleRow s)

/-- Round half to even at integer precision, the rule of Python `round`. -/
def roundHalfEven (q : ℚ) : ℤ :=
  if q - (Int.floor q : ℚ) < 1 / 2 then Int.floor q
  else if 1 / 2 < q - (Int.floor q : ℚ) then Int.floor q + 1
  else if Int.floor q % 2 = 0 then Int.floor q else Int.floor q + 1

/-- Python `round(x, 2)` on the idealised reals. -/
def round2 (q : ℚ) : ℚ :=
  ((roundHalfEven (100 * q) : ℤ) : ℚ) / 100

/-- Outcome of the numeric-coercion loop of `predict` (lines 146-156):
either the coerced body, a `ValueError` caught and turned into a named
400 response, or an uncaught exception (`TypeError`). -/
inductive CoerceErr where
  | badField (f : String)
  | typeErr
deriving DecidableEq

/-- The numeric fields coerced by `predict` (line 147), in loop order. -/
def numericFields : List String :=
  ["area", "bedrooms", "bathrooms", "stories", "parking"]

/-- The loop `for field in numeric_fields: data[field] = float(data[field])`
with its `except ValueError` returning a 400 naming the field; a
`TypeError` from `float` is not caught there. -/
def coerceGo : List String → Row → Except CoerceErr Row
  | [], d => Except.ok d
  | f :: fs, d =>
    match getCol d f with
    | none => coerceGo fs d
    | some v =>
      match pyFloat v with
      | Except.ok q => coerceGo fs (setCol d f (Value.num q))
      | Except.error PyErr.valueError => Except.error (CoerceErr.badField f)
      | Except.error PyErr.typeError => Except.error CoerceErr.typeErr

/-- Numeric coercion of a `/predict` body. -/
def coerceNumerics (data : Row) : Except CoerceErr Row :=
  coerceGo numericFields data

/-- Observable outcome of `POST /predict`: a success body with the rounded
price and the echoed (coerced) input, the 400 "Invalid numeric value for
{field}" response, or a 500 response (components not loaded, or any
uncaught exception). -/
inductive PredictResult where
  | ok (predicted_price : ℚ) (input_data : Row)
  | clientError (field : String)
  | serverError
deriving DecidableEq

/-- HTTP status code of a `/predict` outcome. -/
def PredictResult.statusOf : PredictResult → Nat
  | PredictResult.ok _ _ => 200
  | PredictResult.clientError _ => 400
  | PredictResult.serverError => 500

/-- The `success` flag of a `/predict` response body. -/
def PredictResult.successOf : PredictResult → Bool
  | PredictResult.ok _ _ => true
  | _ => false

/-- `predict` (`src/main.py` lines 122-179).  `all([model, scaler,
encoders])` is falsy when a component is `None` or when the encoders dict is
empty; then the numeric coercion loop, `prepare_features`, and
`model.predict`, any escaping exception giving the catch-all 500. -/
def predict (st : ServerState) (data : Row) : PredictResult :=
  match st.model, st.scaler, st.encoders with
  | some m, some s, some e =>
    if e.isEmpty then PredictResult.serverError
    else
      match coerceNumerics data with
      | Except.error (CoerceErr.badField f) => PredictResult.clientError f
      | Except.error CoerceErr.typeErr => PredictResult.serverError
      | Except.ok d =>
        match st.feature_names with
        | none => PredictResult.serverError
        | some fns =>
          match prepare_features e fns s d with
          | none => PredictResult.serverError
          | some feats => PredictResult.ok (round2 (m feats)) d
  | _, _, _ => PredictResult.serverError

/-- The `simple_data` dict of `predict_simple` (lines 199-212), with the
numeric fields already coerced. -/
structure SimpleData where
  area : ℚ
  bedrooms : ℤ
  bathrooms : ℤ
  stories : ℤ
  mainroad : Value
  guestroom : Value
  basement : Value
  hotwaterheating : Value
  airconditioning : Value
  parking : ℤ
  prefarea : Value
  furnishingstatus : Value
deriving DecidableEq

/-- The `simple_data` dict as the row handed to `prepare_features`, keys in
the literal's order. -/
def SimpleData.toRow (sd : SimpleData) : Row :=
  [("area", Value.num sd.area),
   ("bedrooms", Value.num (sd.bedrooms : ℚ)),
   ("bathrooms", Value.num (sd.bathrooms : ℚ)),
   ("stories", Value.num (sd.stories : ℚ)),
   ("mainroad", sd.mainroad),
   ("guestroom", sd.guestroom),
   ("basement", sd.basement),
   ("hotwaterheating", sd.hotwaterheating),
   ("airconditioning", sd.airconditioning),
   ("parking", Value.num (sd.parking : ℚ)),
   ("prefarea", sd.prefarea),
   ("furnishingstatus", sd.furnishingstatus)]

/-- The documented defaults of `predict_simple`: area 1000, bedrooms 3,
bathrooms 2, stories 1, parking 1, mainroad "yes", the other flags "no",
furnishingstatus "unfurnished". -/
def defaultSimpleData : SimpleData :=
  ⟨1000, 3, 2, 1, Value.str "yes", Value.str "no", Value.str "no",
   Value.str "no", Value.str "no", 1, Value.str "no", Value.str "unfurnished"⟩

/-- Building `simple_data` (lines 199-212): `data.get(field, default)` with
`float`/`int` coercion on the numeric fields, evaluated in the dict
literal's order; any coercion exception escapes to the route's catch-all
`except`. -/
def simpleRecord (data : Row) : Except PyErr SimpleData :=
  match pyFloat ((getCol data "area").getD (Value.num 1000)) with
  | Except.error err => Except.error err
  | Except.ok area =>
    match pyInt ((getCol data "bedrooms").getD (Value.num 3)) with
    | Except.error err => Except.error err
    | Except.ok bedrooms =>
      match pyInt ((getCol data "bathrooms").getD (Value.num 2)) with
      | Except.error err => Except.error err
      | Except.ok bathrooms =>
        match pyInt ((getCol data "stories").getD (Value.num 1)) with
        | Except.error err => Except.error err
        | Except.ok stories =>
          match pyInt ((getCol data "parking").getD (Value.num 1)) with
          | Except.error err => Except.error err
          | Except.ok parking =>
            Except.ok
              { area := area
                bedrooms := bedrooms
                bathrooms := bathrooms
                stories := stories
                mainroad := (getCol data "mainroad").getD (Value.str "yes")
                guestroom := (getCol data "guestroom").getD (Value.str "no")
                basement := (getCol data "basement").getD (Value.str "no")
                hotwaterheating :=
                  (getCol data "hotwaterheating").getD (Value.str "no")
                airconditioning :=
                  (getCol data "airconditioning").getD (Value.str "no")
                parking := parking
                prefarea := (getCol data "prefarea").getD (Value.str "no")
                furnishingstatus :=
                  (getCol data "furnishingstatus").getD
                    (Value.str "unfurnished") }

/-- Observable outcome of `POST /predict/simple`: the success body (rounded
price, price per square foot, and the echoed `input_summary`), or a 500. -/
inductive SimpleResult where
  | ok (predicted_price : ℚ) (price_per_sqft : ℚ) (area : ℚ)
      (bedrooms : ℤ) (bathrooms : ℤ) (location_quality : String)
  | serverError
deriving DecidableEq

/-- HTTP status code of a `/predict/simple` outcome. -/
def SimpleResult.statusOf : SimpleResult → Nat
  | SimpleResult.ok _ _ _ _ _ _ => 200
  | SimpleResult.serverError => 500

/-- The `success` flag of a `/predict/simple` response body. -/
def SimpleResult.successOf : SimpleResult → Bool
  | SimpleResult.ok _ _ _ _ _ _ => true
  | SimpleResult.serverError => false

/-- The response-building tail of `predict_simple` (lines 216-233): prepare
features, run the model, and build the JSON body; dividing by a zero area
raises `ZeroDivisionError` into the catch-all 500. -/
def simpleRespond (m : Model) (s : Scaler) (e : Encoders) (fns : List String)
    (sd : SimpleData) : SimpleResult :=
  match prepare_features e fns s sd.toRow with
  | none => SimpleResult.serverError
  | some feats =>
    if sd.area = 0 then SimpleResult.serverError
    else
      SimpleResult.ok (round2 (m feats)) (round2 (m feats / sd.area)) sd.area
        sd.bedrooms sd.bathrooms
        (if sd.prefarea = Value.str "yes" then "Good" else "Standard")

/-- `predict_simple` (`src/main.py` lines 181-240): the loaded check, then
`simple_data` construction (whose coercion errors reach the catch-all 500),
then the shared preparation and inference path. -/
def predict_simple (st : ServerState) (data : Row) : SimpleResult :=
  match st.model, st.scaler, st.encoders with
  | some m, some s, some e =>
    if e.isEmpty then SimpleResult.serverError
    else
      match simpleRecord data with
      | Except.error _ => SimpleResult.serverError
      | Except.ok sd =>
        match st.feature_names with
        | none => SimpleResult.serverError
        | some fns => simpleRespond m s e fns sd
  | _, _, _ => SimpleResult.serverError

/-- The `GET /health` body (lines 97-106), timestamp omitted. -/
structure HealthResp where
  status : String
  model_loaded : Bool
  scaler_loaded : Bool
  encoders_loaded : Bool
deriving DecidableEq

/-- `health_check` (`src/main.py` lines 97-106): constant status "healthy"
plus `x is not None` for each of the three checked globals. -/
def health_check (st : ServerState) : HealthResp :=
  ⟨"healthy", st.model.isSome, st.scaler.isSome, st.encoders.isSome⟩

/-- Every cell of the row is numeric. -/
def allNum (r : Row) : Prop :=
  ∀ p ∈ r, ∃ q : ℚ, p.2 = Value.num q

/-- Concrete model artifact for witnesses: constant prediction 100. -/
def m0 : Model := fun _ => 100

/-- Concrete scaler artifact for witnesses: identity on two columns. -/
def s0 : Scaler := [fun q => q, fun q => q]

/-- Concrete encoder for witnesses: codes "yes" as 1 and "no" as 0,
raising (none) on anything else. -/
def enc0 : Encoder :=
  ⟨fun v =>
    if v = Value.str "yes" then some 1
    else if v = Value.str "no" then some 0 else none⟩

/-- Concrete encoders dict for witnesses. -/
def e0 : Encoders := [("mainroad", enc0)]

/-- Concrete feature order for witnesses. -/
def fns0 : List String := ["area", "mainroad"]

/-- Concrete fully-loaded server state for witnesses. -/
def st0 : ServerState := ⟨some m0, some s0, some e0, some fns0⟩

/-! ### Association-list lemmas -/

theorem getCol_some_mem {r : Row} {c : String} {v : Value}
    (h : getCol r c = some v) : (c, v) ∈ r := by
  induction r with
  | nil => simp [getCol] at h
  | cons p t ih =>
    obtain ⟨k, w⟩ := p
    by_cases hk : k = c
    · subst hk
      simp [getCol] at h
      simp [h]
    · simp [getCol, hk] at h
      exact List.mem_cons_of_mem _ (ih h)

theorem getCol_append_some {r1 : Row} {c : String} {v : Value} (r2 : Row)
    (h : getCol r1 c = some v) : getCol (r1 ++ r2) c = some v := by
  induction r1 with
  | nil => simp [getCol] at h
  | cons p t ih =>
    obtain ⟨k, w⟩ := p
    by_cases hk : k = c
    · simp [getCol, hk] at h ⊢
      exact h
    · simp [getCol, hk] at h ⊢
      exact ih h

theorem getCol_append_none {r1 : Row} {c : String} (r2 : Row)
    (h : getCol r1 c = none) : getCol (r1 ++ r2) c = getCol r2 c := by
  induction r1 with
  | nil => simp [getCol]
  | cons p t ih =>
    obtain ⟨k, w⟩ := p
    by_cases hk : k = c
    · simp [getCol, hk] at h
    · simp [getCol, hk] at h ⊢
      exact ih h

theorem getCol_replace_self {r : Row} {c : String} {v : Value} (w : Value)
    (h : getCol r c = some v) : getCol (replaceCol r c w) c = some w := by
  induction r with
  | nil => simp [getCol] at h
  | cons p t ih =>
    obtain ⟨k, u⟩ := p
    by_cases hk : k = c
    · rw [replaceCol, if_pos hk, getCol, if_pos rfl]
    · rw [getCol, if_neg hk] at h
      rw [replaceCol, if_neg hk, getCol, if_neg hk]
      exact ih h

theorem getCol_replace_ne {r : Row} {c g : String} (w : Value) (hne : c ≠ g) :
    getCol (replaceCol r c w) g = getCol r g := by
  induction r with
  | nil => simp [replaceCol]
  | cons p t ih =>
    obtain ⟨k, u⟩ := p
    by_cases hk : k = c
    · rw [replaceCol, if_pos hk, getCol, if_neg hne, getCol, if_neg (hk ▸ hne ∘ Eq.symm ∘ Eq.symm)]
      · exact ih
    · by_cases hg : k = g
      · rw [replaceCol, if_neg hk, getCol, if_pos hg, getCol, if_pos hg]
      · rw [replaceCol, if_neg hk, getCol, if_neg hg, getCol, if_neg hg]
        exact ih

theorem getCol_setCol_self {r : Row} {c : String} {v : Value} (w : Value)
    (h : getCol r c = some v) : getCol (setCol r c w) c = some w := by
  unfold setCol
  rw [if_pos (by simp [hasCol, h])]
  exact getCol_replace_self w h

theorem getCol_setCol_ne (r : Row) {c g : String} (w : Value) (hne : c ≠ g) :
    getCol (setCol r c w) g = getCol r g := by
  unfold setCol
  by_cases hc : hasCol r c
  · rw [if_pos hc]
    exact getCol_replace_ne w hne
  · rw [if_neg hc]
    cases hg : getCol r g with
    | some v => exact getCol_append_some _ hg
    | none =>
      rw [getCol_append_none _ hg]
      simp [getCol, hne]

theorem setCol_none_iff {r : Row} {c : String} {v : Value} (w : Value)
    (h : getCol r c = some v) (g : String) :
    getCol (setCol r c w) g = none ↔ getCol r g = none := by
  by_cases hg : c = g
  · subst hg
    rw [getCol_setCol_self w h, h]
    simp
  · rw [getCol_setCol_ne r w hg]

/-! ### Encoder-loop lemmas -/

theorem getCol_encodeStep_ne {col g : String} (r : Row) (enc : Encoder)
    (hne : col ≠ g) : getCol (encodeStep r col enc) g = getCol r g := by
  cases hv : getCol r col with
  | none => simp only [encodeStep, hv]
  | some v =>
    cases ht : enc.transform v with
    | none => simp only [encodeStep, hv, ht, getCol_setCol_ne r _ hne]
    | some q => simp only [encodeStep, hv, ht, getCol_setCol_ne r _ hne]

theorem encodeStep_none_iff (r : Row) (col : String) (enc : Encoder)
    (g : String) :
    getCol (encodeStep r col enc) g = none ↔ getCol r g = none := by
  cases hv : getCol r col with
  | none => simp only [encodeStep, hv]
  | some v =>
    cases ht : enc.transform v with
    | none =>
      simp only [encodeStep, hv, ht]
      exact setCol_none_iff _ hv g
    | some q =>
      simp only [encodeStep, hv, ht]
      exact setCol_none_iff _ hv g

theorem applyEncoders_notin {e : Encoders} {col : String} (r : Row)
    (h : col ∉ e.map Prod.fst) :
    getCol (applyEncoders e r) col = getCol r col := by
  induction e generalizing r with
  | nil => rfl
  | cons p rest ih =>
    obtain ⟨c, enc⟩ := p
    simp only [List.map_cons, List.mem_cons, not_or] at h
    rw [applyEncoders, ih _ h.2]
    exact getCol_encodeStep_ne r enc (Ne.symm h.1)

theorem applyEncoders_none_iff (e : Encoders) (r : Row) (g : String) :
    getCol (applyEncoders e r) g = none ↔ getCol r g = none := by
  induction e generalizing r with
  | nil => exact Iff.rfl
  | cons p rest ih =>
    obtain ⟨c, enc⟩ := p
    rw [applyEncoders, ih]
    exact encodeStep_none_iff r c enc g

/-! ### Fill-loop lemma -/

theorem fillMissing_spec (fns : List String) (r : Row) (f : String) :
    getCol (fillMissing fns r) f =
      if getCol r f = none ∧ f ∈ fns then some (Value.num 0) else getCol r f := by
  induction fns generalizing r with
  | nil => simp [fillMissing]
  | cons g gs ih =>
    rw [fillMissing]
    by_cases hg : hasCol r g
    · rw [if_pos hg, ih]
      by_cases hfg : f = g
      · subst hfg
        have hne : ¬getCol r f = none := by
          cases hv : getCol r f with
          | none => exact absurd (by simp [hasCol, hv] : ¬hasCol r f = true) (by simp [hg])
          | some v => simp
        simp [hne]
      · simp [List.mem_cons, hfg]
    · rw [if_neg hg, ih]
      have hgnone : getCol r g = none := by
        cases hv : getCol r g with
        | none => rfl
        | some v => exact absurd (by simp [hasCol, hv] : hasCol r g = true) hg
      by_cases hfg : f = g
      · subst hfg
        have h1 : getCol (r ++ [(f, Value.num 0)]) f = some (Value.num 0) := by
          rw [getCol_append_none _ hgnone]
          simp [getCol]
        simp [h1, hgnone]
      · have h1 : getCol (r ++ [(g, Value.num 0)]) f = getCol r f := by
          cases hrf : getCol r f with
          | some v => exact getCol_append_some _ hrf
          | none =>
            rw [getCol_append_none _ hrf]
            simp [getCol, Ne.symm hfg]
        rw [h1]
        simp [List.mem_cons, hfg]

/-! ### Reorder, numeric-row, and scaling lemmas -/

theorem reorder_length {fns : List String} {r : Row} {vs : List Value}
    (h : reorder fns r = some vs) : vs.length = fns.length := by
  induction fns generalizing vs with
  | nil =>
    simp [reorder] at h
    simp [h]
  | cons f fs ih =>
    rw [reorder] at h
    cases hv : getCol r f with
    | none => rw [hv] at h; simp at h
    | some v =>
      rw [hv] at h
      cases hrest : reorder fs r with
      | none => rw [hrest] at h; simp at h
      | some ws =>
        rw [hrest] at h
        simp at h
        subst h
        simp [ih hrest]

theorem reorder_get {fns : List String} {r : Row} {vs : List Value}
    (h : reorder fns r = some vs) :
    ∀ i (h1 : i < fns.length) (h2 : i < vs.length),
      getCol r (fns.get ⟨i, h1⟩) = some (vs.get ⟨i, h2⟩) := by
  induction fns generalizing vs with
  | nil => intro i h1; simp at h1
  | cons f fs ih =>
    rw [reorder] at h
    cases hv : getCol r f with
    | none => rw [hv] at h; simp at h
    | some v =>
      rw [hv] at h
      cases hrest : reorder fs r with
      | none => rw [hrest] at h; simp at h
      | some ws =>
        rw [hrest] at h
        simp at h
        subst h
        intro i h1 h2
        cases i with
        | zero => simpa using hv
        | succ j =>
          have h1' : j < fs.length := by simpa using h1
          have h2' : j < ws.length := by simpa using h2
          simpa using ih hrest j h1' h2'

theorem reorder_total {fns : List String} {r : Row}
    (h : ∀ f ∈ fns, ¬getCol r f = none) :
    ∃ vs, reorder fns r = some vs ∧ ∀ v ∈ vs, ∃ c, getCol r c = some v := by
  induction fns with
  | nil => exact ⟨[], rfl, by simp⟩
  | cons f fs ih =>
    obtain ⟨vs, hvs, hmem⟩ := ih fun g hg => h g (List.mem_cons_of_mem _ hg)
    cases hv : getCol r f with
    | none => exact absurd hv (h f (List.mem_cons_self _ _))
    | some v =>
      refine ⟨v :: vs, ?_, ?_⟩
      · rw [reorder, hv, hvs]
      · intro w hw
        rcases List.mem_cons.mp hw with rfl | hw'
        · exact ⟨f, hv⟩
        · exact hmem w hw'

theorem numRow_length {vs : List Value} {qs : List ℚ}
    (h : numRow vs = some qs) : qs.length = vs.length := by
  induction vs generalizing qs with
  | nil =>
    simp [numRow] at h
    simp [h]
  | cons v t ih =>
    rw [numRow] at h
    cases hn : toNumQ v with
    | none => rw [hn] at h; simp at h
    | some q =>
      rw [hn] at h
      cases hrest : numRow t with
      | none => rw [hrest] at h; simp at h
      | some ws =>
        rw [hrest] at h
        simp at h
        subst h
        simp [ih hrest]

theorem numRow_get {vs : List Value} {qs : List ℚ}
    (h : numRow vs = some qs) :
    ∀ i (h1 : i < vs.length) (h2 : i < qs.length),
      vs.get ⟨i, h1⟩ = Value.num (qs.get ⟨i, h2⟩) := by
  induction vs generalizing qs with
  | nil => intro i h1; simp at h1
  | cons v t ih =>
    rw [numRow] at h
    cases hn : toNumQ v with
    | none => rw [hn] at h; simp at h
    | some q =>
      rw [hn] at h
      cases hrest : numRow t with
      | none => rw [hrest] at h; simp at h
      | some ws =>
        rw [hrest] at h
        simp at h
        subst h
        intro i h1 h2
        cases i with
        | zero =>
          cases v with
          | num q0 => simp [toNumQ] at hn; simp [hn]
          | str s => simp [toNumQ] at hn
          | null => simp [toNumQ] at hn
        | succ j =>
          have h1' : j < t.length := by simpa using h1
          have h2' : j < ws.length := by simpa using h2
          simpa using ih hrest j h1' h2'

theorem numRow_total {vs : List Value}
    (h : ∀ v ∈ vs, ∃ q : ℚ, v = Value.num q) :
    ∃ qs, numRow vs = some qs := by
  induction vs with
  | nil => exact ⟨[], rfl⟩
  | cons v t ih =>
    obtain ⟨qs, hqs⟩ := ih fun w hw => h w (List.mem_cons_of_mem _ hw)
    obtain ⟨q, hq⟩ := h v (List.mem_cons_self _ _)
    subst hq
    exact ⟨q :: qs, by rw [numRow, hqs]; rfl⟩

theorem scaleRow_inv {s : Scaler} {vs : List Value} {out : List ℚ}
    (h : scaleRow s vs = some out) :
    vs.length = s.length ∧
      ∃ qs, numRow vs = some qs ∧ out = List.zipWith (fun g q => g q) s qs := by
  unfold scaleRow at h
  by_cases hlen : vs.length = s.length
  · rw [if_pos hlen] at h
    cases hn : numRow vs with
    | none => rw [hn] at h; simp at h
    | some qs =>
      rw [hn] at h
      simp at h
      exact ⟨hlen, qs, rfl, h.symm⟩
  · rw [if_neg hlen] at h
    simp at h

/-! ### Numeric-row preservation lemmas -/

theorem allNum_getCol {r : Row} {c : String} {v : Value} (hr : allNum r)
    (h : getCol r c = some v) : ∃ q : ℚ, v = Value.num q := by
  obtain ⟨q, hq⟩ := hr (c, v) (getCol_some_mem h)
  exact ⟨q, hq⟩

theorem allNum_append_num {r : Row} (hr : allNum r) (c : String) (q : ℚ) :
    allNum (r ++ [(c, Value.num q)]) := by
  intro p hp
  rcases List.mem_append.mp hp with hp1 | hp2
  · exact hr p hp1
  · simp at hp2
    simp [hp2]

theorem allNum_replaceCol (c : String) (q : ℚ) :
    ∀ r : Row, allNum r → allNum (replaceCol r c (Value.num q)) := by
  intro r
  induction r with
  | nil => intro _ p hp; simp [replaceCol] at hp
  | cons p0 t ih =>
    obtain ⟨k, u⟩ := p0
    intro hr p hp
    by_cases hk : k = c
    · rw [replaceCol, if_pos hk] at hp
      rcases List.mem_cons.mp hp with rfl | hp2
      · exact ⟨q, rfl⟩
      · exact ih (fun w hw => hr w (List.mem_cons_of_mem _ hw)) p hp2
    · rw [replaceCol, if_neg hk] at hp
      rcases List.mem_cons.mp hp with rfl | hp2
      · exact hr _ (List.mem_cons_self _ _)
      · exact ih (fun w hw => hr w (List.mem_cons_of_mem _ hw)) p hp2

theorem allNum_setCol {r : Row} (hr : allNum r) (c : String) (q : ℚ) :
    allNum (setCol r c (Value.num q)) := by
  unfold setCol
  by_cases hc : hasCol r c
  · rw [if_pos hc]
    exact allNum_replaceCol c q r hr
  · rw [if_neg hc]
    exact allNum_append_num hr c q

theorem allNum_encodeStep {r : Row} (hr : allNum r) (col : String)
    (enc : Encoder) : allNum (encodeStep r col enc) := by
  cases hv : getCol r col with
  | none => simpa only [encodeStep, hv] using hr
  | some v =>
    cases ht : enc.transform v with
    | none =>
      simp only [encodeStep, hv, ht]
      exact allNum_setCol hr col 0
    | some q =>
      simp only [encodeStep, hv, ht]
      exact allNum_setCol hr col q

theorem allNum_applyEncoders {e : Encoders} {r : Row} (hr : allNum r) :
    allNum (applyEncoders e r) := by
  induction e generalizing r with
  | nil => exact hr
  | cons p rest ih =>
    obtain ⟨c, enc⟩ := p
    rw [applyEncoders]
    exact ih (allNum_encodeStep hr c enc)

theorem allNum_fillMissing {fns : List String} {r : Row} (hr : allNum r) :
    allNum (fillMissing fns r) := by
  induction fns generalizing r with
  | nil => exact hr
  | cons f fs ih =>
    rw [fillMissing]
    by_cases hf : hasCol r f
    · rw [if_pos hf]
      exact ih hr
    · rw [if_neg hf]
      exact ih (allNum_append_num hr f 0)

/-! ### Coercion-loop lemmas -/

theorem coerceGo_allNum : ∀ (fields : List String) (d : Row), allNum d →
    ∃ d2, coerceGo fields d = Except.ok d2 ∧ allNum d2 ∧
      ∀ g, (getCol d2 g = none ↔ getCol d g = none) := by
  intro fields
  induction fields with
  | nil => exact fun d hd => ⟨d, rfl, hd, fun g => Iff.rfl⟩
  | cons f fs ih =>
    intro d hd
    cases hv : getCol d f with
    | none =>
      obtain ⟨d2, h1, h2, h3⟩ := ih d hd
      refine ⟨d2, ?_, h2, h3⟩
      rw [coerceGo, hv]
      exact h1
    | some v =>
      obtain ⟨q, hq⟩ := allNum_getCol hd hv
      subst hq
      obtain ⟨d2, h1, h2, h3⟩ := ih (setCol d f (Value.num q)) (allNum_setCol hd f q)
      refine ⟨d2, ?_, h2, fun g => (h3 g).trans (setCol_none_iff _ hv g)⟩
      rw [coerceGo, hv]
      exact h1

theorem coerceGo_badField : ∀ (fields : List String) (d : Row) (f : String),
    coerceGo fields d = Except.error (CoerceErr.badField f) →
    f ∈ fields ∧
      ∃ v, getCol d f = some v ∧ pyFloat v = Except.error PyErr.valueError := by
  intro fields
  induction fields with
  | nil =>
    intro d f h
    rw [coerceGo] at h
    simp at h
  | cons g gs ih =>
    intro d f h
    rw [coerceGo] at h
    cases hv : getCol d g with
    | none =>
      simp only [hv] at h
      obtain ⟨hmem, v, hgv, hpv⟩ := ih d f h
      exact ⟨List.mem_cons_of_mem _ hmem, v, hgv, hpv⟩
    | some v =>
      simp only [hv] at h
      cases hp : pyFloat v with
      | ok q =>
        simp only [hp] at h
        obtain ⟨hmem, w, hgw, hpw⟩ := ih _ f h
        refine ⟨List.mem_cons_of_mem _ hmem, ?_⟩
        by_cases hfg : g = f
        · subst hfg
          rw [getCol_setCol_self (Value.num q) hv] at hgw
          injection hgw with hgw2
          rw [← hgw2] at hpw
          simp [pyFloat] at hpw
        · rw [getCol_setCol_ne d _ hfg] at hgw
          exact ⟨w, hgw, hpw⟩
      | error pe =>
        cases pe with
        | valueError =>
          simp only [hp] at h
          simp at h
          subst h
          exact ⟨List.mem_cons_self _ _, v, hv, hp⟩
        | typeError =>
          simp only [hp] at h
          simp at h

/-! ### Rounding lemmas -/

theorem roundHalfEven_nonneg {q : ℚ} (h : 0 ≤ q) : 0 ≤ roundHalfEven q := by
  have hf : (0 : ℤ) ≤ Int.floor q := Int.le_floor.mpr (by exact_mod_cast h)
  unfold roundHalfEven
  split_ifs <;> omega

theorem abs_roundHalfEven_sub_le (q : ℚ) :
    |((roundHalfEven q : ℤ) : ℚ) - q| ≤ 1 / 2 := by
  have h1 : ((Int.floor q : ℤ) : ℚ) ≤ q := Int.floor_le q
  have h2 : q < ((Int.floor q : ℤ) : ℚ) + 1 := Int.lt_floor_add_one q
  unfold roundHalfEven
  split_ifs with ha hb hc <;> rw [abs_le] <;> constructor <;> push_cast <;> linarith

theorem round2_nonneg {q : ℚ} (h : 0 ≤ q) : 0 ≤ round2 q := by
  unfold round2
  have h0 : (0 : ℤ) ≤ roundHalfEven (100 * q) :=
    roundHalfEven_nonneg (by positivity)
  have h0q : (0 : ℚ) ≤ ((roundHalfEven (100 * q) : ℤ) : ℚ) := by exact_mod_cast h0
  positivity

theorem abs_round2_sub_le (q : ℚ) : |round2 q - q| ≤ 1 / 200 := by
  unfold round2
  have h := abs_roundHalfEven_sub_le (100 * q)
  have heq : ((roundHalfEven (100 * q) : ℤ) : ℚ) / 100 - q =
      (((roundHalfEven (100 * q) : ℤ) : ℚ) - 100 * q) / 100 := by ring
  rw [heq, abs_div, abs_of_pos (by norm_num : (0 : ℚ) < 100)]
  linarith

theorem round2_div_bound (p a : ℚ) (ha : a ≠ 0) :
    |round2 (p / a) - round2 p / a| ≤ 1 / 200 + 1 / (200 * |a|) := by
  have h1 := abs_round2_sub_le (p / a)
  have h2 := abs_round2_sub_le p
  have hpos : 0 < |a| := abs_pos.mpr ha
  have key : round2 (p / a) - round2 p / a =
      (round2 (p / a) - p / a) + (p - round2 p) / a := by
    field_simp
  rw [key]
  have h3 : |(round2 (p / a) - p / a) + (p - round2 p) / a| ≤
      |round2 (p / a) - p / a| + |(p - round2 p) / a| := abs_add _ _
  have h4 : |(p - round2 p) / a| = |p - round2 p| / |a| := abs_div _ _
  have h5 : |p - round2 p| ≤ 1 / 200 := by
    rw [abs_sub_comm]
    exact h2
  have h6 : |p - round2 p| / |a| ≤ (1 / 200) / |a| := by gcongr
  have h7 : (1 / 200 : ℚ) / |a| = 1 / (200 * |a|) := by
    rw [div_div]
  linarith [h3, h4 ▸ h6]

/-! ### Further helper lemmas -/

theorem applyEncoders_unknown (col : String) (enc : Encoder) (v : Value)
    (henc : enc.transform v = none) :
    ∀ (e : Encoders) (r : Row), (e.map Prod.fst).Nodup → (col, enc) ∈ e →
      getCol r col = some v →
      getCol (applyEncoders e r) col = some (Value.num 0) := by
  intro e
  induction e with
  | nil =>
    intro r _ hmem
    simp at hmem
  | cons p rest ih =>
    obtain ⟨c, enc1⟩ := p
    intro r hnd hmem hv
    simp only [List.map_cons, List.nodup_cons] at hnd
    rcases List.mem_cons.mp hmem with heq | hmem2
    · injection heq with h1 h2
      subst h1
      subst h2
      rw [applyEncoders]
      have hstep : encodeStep r col enc = setCol r col (Value.num 0) := by
        simp only [encodeStep, hv, henc]
      rw [hstep, applyEncoders_notin _ hnd.1]
      exact getCol_setCol_self _ hv
    · have hcol_in : col ∈ rest.map Prod.fst :=
        List.mem_map_of_mem Prod.fst hmem2
      have hc_ne : c ≠ col := fun hcc => hnd.1 (by rw [hcc]; exact hcol_in)
      rw [applyEncoders]
      exact ih (encodeStep r c enc1) hnd.2 hmem2
        (by rw [getCol_encodeStep_ne _ _ hc_ne]; exact hv)

/-! ### Claim theorems -/

/-- C10: in every reachable service state, `GET /health` answers with the
constant status "healthy", whether or not any artifact was loaded; only the
three `*_loaded` Booleans vary with load state. -/
theorem health_status_constant :
    (∀ st : ServerState, (health_check st).status = "healthy") ∧
    (∀ st1 st2 : ServerState,
      (health_check st1).status = (health_check st2).status) :=
  ⟨fun _ => rfl, fun _ _ => rfl⟩

/-- C7: after running startup loading from the fresh state, the `/health`
fields truthfully report which artifacts were loaded: `model_loaded` holds
exactly when the model file loaded, `scaler_loaded` when both the model and
the scaler loaded (loading stops at the first failure), and so on; after a
successful startup all three are true. -/
theorem health_reflects_load (fs : ArtifactStore) (st : ServerState)
    (ok : Bool) (h : load_model_components fs initState = (st, ok)) :
    (health_check st).model_loaded = fs.model.isSome ∧
    (health_check st).scaler_loaded = (fs.model.isSome && fs.scaler.isSome) ∧
    (health_check st).encoders_loaded =
      (fs.model.isSome && fs.scaler.isSome && fs.encoders.isSome) ∧
    (ok = true →
      (health_check st).model_loaded = true ∧
      (health_check st).scaler_loaded = true ∧
      (health_check st).encoders_loaded = true) := by
  obtain ⟨m, s, e, fns⟩ := fs
  cases m <;> cases s <;> cases e <;> cases fns <;>
    · simp only [load_model_components, initState, Prod.mk.injEq] at h
      obtain ⟨hst, hok⟩ := h
      subst hst
      subst hok
      simp [health_check]

/-- C7 witness: a fully stocked artifact store loads successfully and all
three health flags read true. -/
theorem health_reflects_load_witness :
    (health_check st0).model_loaded = true :=
  ((health_reflects_load ⟨some m0, some s0, some e0, some fns0⟩ st0 true
    rfl).2.2.2 rfl).1

/-- C2: for a categorical column with a known encoder, a value the encoder
does not recognise never makes `prepare_features` raise: the column is set
to the default code 0 by the encoder loop, and columns without an encoder
are left untouched, so the remaining steps proceed unchanged. -/
theorem unknown_category_never_raises (e : Encoders) (r : Row) (col : String)
    (enc : Encoder) (v : Value)
    (hnd : (e.map Prod.fst).Nodup) (hmem : (col, enc) ∈ e)
    (hv : getCol r col = some v) (henc : enc.transform v = none) :
    getCol (applyEncoders e r) col = some (Value.num 0) ∧
    ∀ g, g ∉ e.map Prod.fst → getCol (applyEncoders e r) g = getCol r g :=
  ⟨applyEncoders_unknown col enc v henc e r hnd hmem hv,
   fun _ hg => applyEncoders_notin r hg⟩

/-- C2 witness: the unseen label "maybe" in the mainroad column is encoded
as the default code 0. -/
theorem unknown_category_never_raises_witness :
    getCol (applyEncoders e0 [("mainroad", Value.str "maybe")]) "mainroad" =
      some (Value.num 0) :=
  (unknown_category_never_raises e0 [("mainroad", Value.str "maybe")]
    "mainroad" enc0 (Value.str "maybe") (by simp [e0]) (by simp [e0]) rfl
    rfl).1

/-- C1: whenever `prepare_features` returns a feature vector, the vector has
exactly `len(feature_names)` entries; entry `i` is the fitted column
transform of `feature_names[i]` applied to the (numeric) cell of that column
of the encoded-and-filled row, so the ordering is exactly `feature_names`;
and every feature absent from the input holds the default 0 in that row
before scaling. -/
theorem feature_vector_matches_feature_names (e : Encoders)
    (fns : List String) (s : Scaler) (input_data : Row) (out : List ℚ)
    (h : prepare_features e fns s input_data = some out) :
    out.length = fns.length ∧ s.length = fns.length ∧
    (∀ i (h1 : i < fns.length) (h2 : i < out.length) (h3 : i < s.length),
      ∃ q : ℚ,
        getCol (fillMissing fns (applyEncoders e input_data))
            (fns.get ⟨i, h1⟩) = some (Value.num q) ∧
        out.get ⟨i, h2⟩ = (s.get ⟨i, h3⟩) q) ∧
    (∀ f ∈ fns, getCol input_data f = none →
      getCol (fillMissing fns (applyEncoders e input_data)) f =
        some (Value.num 0)) := by
  unfold prepare_features at h
  cases hre : reorder fns (fillMissing fns (applyEncoders e input_data)) with
  | none =>
    rw [hre] at h
    simp at h
  | some vs =>
    rw [hre] at h
    replace h : scaleRow s vs = some out := h
    obtain ⟨hlen, qs, hnr, hout⟩ := scaleRow_inv h
    have hql : qs.length = vs.length := numRow_length hnr
    have hvl : vs.length = fns.length := reorder_length hre
    have houtlen : out.length = fns.length := by
      rw [hout, List.length_zipWith]
      omega
    refine ⟨houtlen, by omega, ?_, ?_⟩
    · intro i h1 h2 h3
      have h4 : i < vs.length := by omega
      have h5 : i < qs.length := by omega
      refine ⟨qs.get ⟨i, h5⟩, ?_, ?_⟩
      · rw [reorder_get hre i h1 h4, numRow_get hnr i h4 h5]
      · subst hout
        simp [List.get_eq_getElem, List.getElem_zipWith]
    · intro f hf hnone
      rw [fillMissing_spec]
      rw [if_pos ⟨(applyEncoders_none_iff e input_data f).mpr hnone, hf⟩]

/-- C1 witness: on the empty body the pipeline yields a vector of the same
length as the feature-name list. -/
theorem feature_vector_matches_feature_names_witness :
    ([(0 : ℚ), 0] : List ℚ).length = fns0.length :=
  (feature_vector_matches_feature_names e0 fns0 s0 [] [0, 0] rfl).1

/-- C3 (amended): a string value that `float` cannot parse in a numeric
field (a `ValueError`) makes `POST /predict` answer 400 with success false,
naming the failing field, which does hold such a value; and the outcome does
not depend on the model, scaler or encoder artifacts, so no feature
preparation or inference takes place.  (As `invalid_numeric_null_gives_500`
shows, a non-string non-numeric value such as JSON null instead escapes the
`except ValueError` handler and produces a 500.) -/
theorem invalid_numeric_string_returns_400 (st : ServerState) (m : Model)
    (s : Scaler) (e : Encoders) (data : Row) (f : String)
    (hm : st.model = some m) (hs : st.scaler = some s)
    (he : st.encoders = some e) (hne : e ≠ [])
    (hc : coerceNumerics data = Except.error (CoerceErr.badField f)) :
    predict st data = PredictResult.clientError f ∧
    (predict st data).statusOf = 400 ∧
    (predict st data).successOf = false ∧
    f ∈ numericFields ∧
    (∃ v, getCol data f = some v ∧
      pyFloat v = Except.error PyErr.valueError) ∧
    (∀ (m2 : Model) (s2 : Scaler) (e2 : Encoders), e2 ≠ [] →
      predict ⟨some m2, some s2, some e2, st.feature_names⟩ data =
        PredictResult.clientError f) := by
  have hpred : ∀ (m2 : Model) (s2 : Scaler) (e2 : Encoders), e2 ≠ [] →
      ∀ fns2, predict ⟨some m2, some s2, some e2, fns2⟩ data =
        PredictResult.clientError f := by
    intro m2 s2 e2 hne2 fns2
    have hemp : e2.isEmpty = false := by
      cases e2 with
      | nil => exact absurd rfl hne2
      | cons a t => rfl
    simp [predict, hemp, hc]
  obtain ⟨om, os, oe, ofn⟩ := st
  replace hm : om = some m := hm
  replace hs : os = some s := hs
  replace he : oe = some e := he
  subst hm
  subst hs
  subst he
  have hmain := hpred m s e hne ofn
  rw [hmain]
  exact ⟨rfl, rfl, rfl, (coerceGo_badField numericFields data f hc).1,
    (coerceGo_badField numericFields data f hc).2,
    fun m2 s2 e2 hx => hpred m2 s2 e2 hx ofn⟩

/-- C3 witness: the unparsable string "abc" in the area field yields the
400 response naming area. -/
theorem invalid_numeric_string_returns_400_witness :
    predict st0 [("area", Value.str "abc")] =
      PredictResult.clientError "area" :=
  (invalid_numeric_string_returns_400 st0 m0 s0 e0
    [("area", Value.str "abc")] "area" rfl rfl rfl (List.cons_ne_nil _ _)
    rfl).1

/-- C3 counterexample: JSON null in the area field cannot be coerced to a
number, yet `POST /predict` answers 500, not 400: `float(None)` raises
`TypeError`, which the `except ValueError` clause does not catch, so the
route's catch-all handler reports a server error. -/
theorem invalid_numeric_null_gives_500 :
    pyFloat Value.null = Except.error PyErr.typeError ∧
    predict st0 [("area", Value.null)] = PredictResult.serverError ∧
    (predict st0 [("area", Value.null)]).statusOf = 500 ∧
    (predict st0 [("area", Value.null)]).statusOf ≠ 400 :=
  ⟨rfl, rfl, rfl, by decide⟩

/-- C9: any coercion failure while building `simple_data` (for example a
string that `int` cannot parse in a numeric field) escapes to the catch-all
handler of `POST /predict/simple`, which answers a generic 500 — in
contrast with `POST /predict`, which answers 400 naming the field for the
same body (shown at area "abc"). -/
theorem simple_coercion_error_500 (st : ServerState) (data : Row)
    (err : PyErr) (h : simpleRecord data = Except.error err) :
    predict_simple st data = SimpleResult.serverError ∧
    (predict_simple st data).statusOf = 500 ∧
    (predict_simple st data).successOf = false ∧
    predict st0 [("area", Value.str "abc")] =
      PredictResult.clientError "area" ∧
    predict_simple st0 [("area", Value.str "abc")] =
      SimpleResult.serverError := by
  obtain ⟨om, os, oe, ofn⟩ := st
  have hmain : predict_simple ⟨om, os, oe, ofn⟩ data =
      SimpleResult.serverError := by
    cases om with
    | none => rfl
    | some m =>
      cases os with
      | none => rfl
      | some s =>
        cases oe with
        | none => rfl
        | some e =>
          by_cases hemp : e.isEmpty
          · simp [predict_simple, hemp]
          · simp [predict_simple, hemp, h]
  exact ⟨hmain, by rw [hmain]; rfl, by rw [hmain]; rfl, rfl, rfl⟩

/-- C9 witness: bedrooms "2.5" is rejected by `int`, and the simple endpoint
answers 500. -/
theorem simple_coercion_error_500_witness :
    predict_simple st0 [("bedrooms", Value.str "2.5")] =
      SimpleResult.serverError :=
  (simple_coercion_error_500 st0 [("bedrooms", Value.str "2.5")]
    PyErr.valueError rfl).1

/-- C8: `POST /predict` never rejects a body for missing attributes: with
the artifacts loaded and the scaler fitted to the feature-name width, any
body of numeric values — including the empty body, which lacks all twelve
required fields — produces a 200 success response, and every feature absent
from the body is defaulted to 0 in the prepared row before scaling. -/
theorem missing_fields_never_rejected (st : ServerState) (m : Model)
    (s : Scaler) (e : Encoders) (fns : List String) (data : Row)
    (hm : st.model = some m) (hs : st.scaler = some s)
    (he : st.encoders = some e) (hne : e ≠ [])
    (hfns : st.feature_names = some fns)
    (hlen : s.length = fns.length) (hdata : allNum data) :
    (predict st data).statusOf = 200 ∧
    (predict st data).successOf = true ∧
    (∀ d2, coerceNumerics data = Except.ok d2 →
      ∀ f ∈ fns, getCol data f = none →
        getCol (fillMissing fns (applyEncoders e d2)) f =
          some (Value.num 0)) := by
  obtain ⟨d2, hco, hd2num, hkeys⟩ := coerceGo_allNum numericFields data hdata
  have h1 : allNum (applyEncoders e d2) := allNum_applyEncoders hd2num
  have h2 : allNum (fillMissing fns (applyEncoders e d2)) :=
    allNum_fillMissing h1
  have hpresent : ∀ f ∈ fns,
      ¬getCol (fillMissing fns (applyEncoders e d2)) f = none := by
    intro f hf
    rw [fillMissing_spec]
    by_cases hn : getCol (applyEncoders e d2) f = none
    · rw [if_pos ⟨hn, hf⟩]
      simp
    · rw [if_neg fun hcon => hn hcon.1]
      exact hn
  obtain ⟨vs, hvs, hmemvals⟩ := reorder_total hpresent
  have hvsnum : ∀ v ∈ vs, ∃ q : ℚ, v = Value.num q := by
    intro v hv
    obtain ⟨c, hc⟩ := hmemvals v hv
    exact allNum_getCol h2 hc
  obtain ⟨qs, hqs⟩ := numRow_total hvsnum
  have hvl : vs.length = fns.length := reorder_length hvs
  have hscale : scaleRow s vs =
      some (List.zipWith (fun g q => g q) s qs) := by
    unfold scaleRow
    rw [if_pos (by omega : vs.length = s.length), hqs]
  have hprep : prepare_features e fns s d2 =
      some (List.zipWith (fun g q => g q) s qs) := by
    unfold prepare_features
    rw [hvs]
    exact hscale
  have hemp : e.isEmpty = false := by
    cases e with
    | nil => exact absurd rfl hne
    | cons a t => rfl
  have hconum : coerceNumerics data = Except.ok d2 := hco
  have hmain : predict st data =
      PredictResult.ok (round2 (m (List.zipWith (fun g q => g q) s qs)))
        d2 := by
    simp [predict, hm, hs, he, hfns, hemp, hconum, hprep]
  refine ⟨by rw [hmain]; rfl, by rw [hmain]; rfl, ?_⟩
  intro d2' hco' f hf hnone
  rw [hconum] at hco'
  injection hco' with hco2
  subst hco2
  rw [fillMissing_spec,
    if_pos ⟨(applyEncoders_none_iff e d2 f).mpr ((hkeys f).mpr hnone), hf⟩]

/-- C8 witness: the empty body — missing all twelve required fields — is
accepted with a 200 status. -/
theorem missing_fields_never_rejected_witness :
    (predict st0 ([] : Row)).statusOf = 200 :=
  (missing_fields_never_rejected st0 m0 s0 e0 fns0 [] rfl rfl rfl
    (List.cons_ne_nil _ _) rfl rfl (by simp [allNum])).1

/-- C6: on both prediction endpoints, a success response carries
`predicted_price` equal to the raw model output rounded to two decimals
(Python's half-to-even rule), and whenever the raw output is non-negative
the returned price is non-negative as well. -/
theorem predicted_price_rounded_nonneg :
    (∀ (st : ServerState) (m : Model) (s : Scaler) (e : Encoders)
        (fns : List String) (data d2 : Row) (pp : ℚ) (feats : List ℚ),
      st.model = some m → st.scaler = some s → st.encoders = some e →
      st.feature_names = some fns →
      coerceNumerics data = Except.ok d2 →
      prepare_features e fns s d2 = some feats →
      predict st data = PredictResult.ok pp d2 →
      pp = round2 (m feats) ∧ (0 ≤ m feats → 0 ≤ pp)) ∧
    (∀ (st : ServerState) (m : Model) (s : Scaler) (e : Encoders)
        (fns : List String) (data : Row) (sd : SimpleData)
        (pp pps a : ℚ) (bb bth : ℤ) (lq : String) (feats : List ℚ),
      st.model = some m → st.scaler = some s → st.encoders = some e →
      st.feature_names = some fns →
      simpleRecord data = Except.ok sd →
      prepare_features e fns s sd.toRow = some feats →
      predict_simple st data = SimpleResult.ok pp pps a bb bth lq →
      pp = round2 (m feats) ∧ (0 ≤ m feats → 0 ≤ pp)) := by
  constructor
  · intro st m s e fns data d2 pp feats hm hs he hfns hco hprep h
    obtain ⟨om, os, oe, ofn⟩ := st
    replace hm : om = some m := hm
    replace hs : os = some s := hs
    replace he : oe = some e := he
    replace hfns : ofn = some fns := hfns
    subst hm
    subst hs
    subst he
    subst hfns
    by_cases hemp : e.isEmpty = true
    · simp [predict, hemp] at h
    · have hempf : e.isEmpty = false := by
        revert hemp
        cases e.isEmpty <;> simp
      simp only [predict, hempf, Bool.false_eq_true, if_false, hco,
        hprep] at h
      injection h with h1 h2
      exact ⟨h1.symm, fun h0 => h1 ▸ round2_nonneg h0⟩
  · intro st m s e fns data sd pp pps a bb bth lq feats hm hs he hfns hsd
      hprep h
    obtain ⟨om, os, oe, ofn⟩ := st
    replace hm : om = some m := hm
    replace hs : os = some s := hs
    replace he : oe = some e := he
    replace hfns : ofn = some fns := hfns
    subst hm
    subst hs
    subst he
    subst hfns
    by_cases hemp : e.isEmpty = true
    · simp [predict_simple, hemp] at h
    · have hempf : e.isEmpty = false := by
        revert hemp
        cases e.isEmpty <;> simp
      simp only [predict_simple, hempf, Bool.false_eq_true, if_false,
        hsd] at h
      simp only [simpleRespond, hprep] at h
      by_cases ha0 : sd.area = 0
      · rw [if_pos ha0] at h
        exact (SimpleResult.noConfusion h)
      · rw [if_neg ha0] at h
        injection h with h1 h2 h3 h4 h5 h6
        exact ⟨h1.symm, fun h0 => h1 ▸ round2_nonneg h0⟩

/-- C6 witness: at the concrete loaded state the empty body gives price
`round2` of the model output, which is non-negative. -/
theorem predicted_price_rounded_nonneg_witness :
    0 ≤ round2 (m0 [0, 0]) :=
  (predicted_price_rounded_nonneg.1 st0 m0 s0 e0 fns0 [] []
    (round2 (m0 [0, 0])) [0, 0] rfl rfl rfl rfl rfl rfl rfl).2
    (by simp [m0])

/-- C5: in every success response of `POST /predict/simple`,
`predicted_price` and `price_per_sqft` are the raw model output and the raw
output divided by the (defaulted) area, each independently rounded to two
decimals; the area is nonzero (a zero area would raise into the 500
handler), and the two fields agree with `predicted_price / area` within the
combined rounding tolerance. -/
theorem price_per_sqft_consistent (st : ServerState) (m : Model) (s : Scaler)
    (e : Encoders) (fns : List String) (data : Row) (sd : SimpleData)
    (pp pps a : ℚ) (bb bth : ℤ) (lq : String) (feats : List ℚ)
    (hm : st.model = some m) (hs : st.scaler = some s)
    (he : st.encoders = some e) (hfns : st.feature_names = some fns)
    (hsd : simpleRecord data = Except.ok sd)
    (hprep : prepare_features e fns s sd.toRow = some feats)
    (h : predict_simple st data = SimpleResult.ok pp pps a bb bth lq) :
    pp = round2 (m feats) ∧ pps = round2 (m feats / a) ∧
    a = sd.area ∧ a ≠ 0 ∧
    |pps - pp / a| ≤ 1 / 200 + 1 / (200 * |a|) := by
  obtain ⟨om, os, oe, ofn⟩ := st
  replace hm : om = some m := hm
  replace hs : os = some s := hs
  replace he : oe = some e := he
  replace hfns : ofn = some fns := hfns
  subst hm
  subst hs
  subst he
  subst hfns
  by_cases hemp : e.isEmpty = true
  · simp [predict_simple, hemp] at h
  · have hempf : e.isEmpty = false := by
      revert hemp
      cases e.isEmpty <;> simp
    simp only [predict_simple, hempf, Bool.false_eq_true, if_false,
      hsd] at h
    simp only [simpleRespond, hprep] at h
    by_cases ha0 : sd.area = 0
    · rw [if_pos ha0] at h
      exact (SimpleResult.noConfusion h)
    · rw [if_neg ha0] at h
      injection h with h1 h2 h3 h4 h5 h6
      subst h3
      subst h1
      subst h2
      exact ⟨rfl, rfl, rfl, ha0, round2_div_bound (m feats) sd.area ha0⟩

/-- C5 witness: on the empty body (defaulted area 1000) the price per
square foot is within the rounding tolerance of price divided by area. -/
theorem price_per_sqft_consistent_witness :
    |round2 (m0 [1000, 1] / 1000) - round2 (m0 [1000, 1]) / 1000| ≤
      1 / 200 + 1 / (200 * |(1000 : ℚ)|) :=
  (price_per_sqft_consistent st0 m0 s0 e0 fns0 [] defaultSimpleData
    (round2 (m0 [1000, 1])) (round2 (m0 [1000, 1] / 1000)) 1000 3 2
    "Standard" [1000, 1] rfl rfl rfl rfl rfl rfl rfl).2.2.2.2

/-- C4: with an empty body, `POST /predict/simple` builds exactly the
documented default record (area 1000, bedrooms 3, bathrooms 2, stories 1,
mainroad "yes", guestroom "no", basement "no", hotwaterheating "no",
airconditioning "no", parking 1, prefarea "no", furnishingstatus
"unfurnished") and hands it to feature preparation / inference, so the
response equals the response for a body spelling out those defaults; and on
any body, every field the caller leaves out keeps its own documented
default, so a supplied field overrides only itself. -/
theorem simple_defaults_applied :
    simpleRecord [] = Except.ok defaultSimpleData ∧
    defaultSimpleData.toRow =
      [("area", Value.num 1000), ("bedrooms", Value.num 3),
       ("bathrooms", Value.num 2), ("stories", Value.num 1),
       ("mainroad", Value.str "yes"), ("guestroom", Value.str "no"),
       ("basement", Value.str "no"), ("hotwaterheating", Value.str "no"),
       ("airconditioning", Value.str "no"), ("parking", Value.num 1),
       ("prefarea", Value.str "no"),
       ("furnishingstatus", Value.str "unfurnished")] ∧
    (∀ st : ServerState,
      predict_simple st [] = predict_simple st defaultSimpleData.toRow) ∧
    (∀ (data : Row) (sd : SimpleData), simpleRecord data = Except.ok sd →
      (getCol data "area" = none → sd.area = 1000) ∧
      (getCol data "bedrooms" = none → sd.bedrooms = 3) ∧
      (getCol data "bathrooms" = none → sd.bathrooms = 2) ∧
      (getCol data "stories" = none → sd.stories = 1) ∧
      (getCol data "mainroad" = none → sd.mainroad = Value.str "yes") ∧
      (getCol data "guestroom" = none → sd.guestroom = Value.str "no") ∧
      (getCol data "basement" = none → sd.basement = Value.str "no") ∧
      (getCol data "hotwaterheating" = none →
        sd.hotwaterheating = Value.str "no") ∧
      (getCol data "airconditioning" = none →
        sd.airconditioning = Value.str "no") ∧
      (getCol data "parking" = none → sd.parking = 1) ∧
      (getCol data "prefarea" = none → sd.prefarea = Value.str "no") ∧
      (getCol data "furnishingstatus" = none →
        sd.furnishingstatus = Value.str "unfurnished")) := by
  refine ⟨rfl, rfl, fun st => rfl, ?_⟩
  intro data sd h
  rw [simpleRecord] at h
  cases harea : pyFloat ((getCol data "area").getD (Value.num 1000)) with
  | error e1 =>
    simp only [harea] at h
    exact Except.noConfusion h
  | ok area =>
    simp only [harea] at h
    cases hbed : pyInt ((getCol data "bedrooms").getD (Value.num 3)) with
    | error e1 =>
      simp only [hbed] at h
      exact Except.noConfusion h
    | ok bedrooms =>
      simp only [hbed] at h
      cases hbath : pyInt ((getCol data "bathrooms").getD (Value.num 2)) with
      | error e1 =>
        simp only [hbath] at h
        exact Except.noConfusion h
      | ok bathrooms =>
        simp only [hbath] at h
        cases hsto : pyInt ((getCol data "stories").getD (Value.num 1)) with
        | error e1 =>
          simp only [hsto] at h
          exact Except.noConfusion h
        | ok stories =>
          simp only [hsto] at h
          cases hpark :
              pyInt ((getCol data "parking").getD (Value.num 1)) with
          | error e1 =>
            simp only [hpark] at h
            exact Except.noConfusion h
          | ok parking =>
            simp only [hpark] at h
            injection h with h2
            subst h2
            refine ⟨?_, ?_, ?_, ?_, ?_, ?_, ?_, ?_, ?_, ?_, ?_, ?_⟩
            · intro hnone
              rw [hnone] at harea
              have hx : Except.ok (1000 : ℚ) = Except.ok area := harea
              injection hx with hx2
              exact hx2.symm
            · intro hnone
              rw [hnone] at hbed
              have hx : Except.ok (3 : ℤ) = Except.ok bedrooms := hbed
              injection hx with hx2
              exact hx2.symm
            · intro hnone
              rw [hnone] at hbath
              have hx : Except.ok (2 : ℤ) = Except.ok bathrooms := hbath
              injection hx with hx2
              exact hx2.symm
            · intro hnone
              rw [hnone] at hsto
              have hx : Except.ok (1 : ℤ) = Except.ok stories := hsto
              injection hx with hx2
              exact hx2.symm
            · intro hnone
              simp [hnone]
            · intro hnone
              simp [hnone]
            · intro hnone
              simp [hnone]
            · intro hnone
              simp [hnone]
            · intro hnone
              simp [hnone]
            · intro hnone
              rw [hnone] at hpark
              have hx : Except.ok (1 : ℤ) = Except.ok parking := hpark
              injection hx with hx2
              exact hx2.symm
            · intro hnone
              simp [hnone]
            · intro hnone
              simp [hnone]

/-- C4 witness: a body supplying only the area leaves the bedrooms default
of 3 in place. -/
theorem simple_defaults_applied_witness :
    (⟨2000, 3, 2, 1, Value.str "yes", Value.str "no", Value.str "no",
      Value.str "no", Value.str "no", 1, Value.str "no",
      Value.str "unfurnished"⟩ : SimpleData).bedrooms = 3 :=
  ((simple_defaults_applied.2.2.2 [("area", Value.num 2000)]
    ⟨2000, 3, 2, 1, Value.str "yes", Value.str "no", Value.str "no",
      Value.str "no", Value.str "no", 1, Value.str "no",
      Value.str "unfurnished"⟩ rfl).2.1) rfl
